import Mathlib

/-!
Verification development for the `tar_scm` source-packaging service
(`src/tar_scm.py`, Python 2).  Python strings are modelled as `List Char`
(byte strings) or Lean `String` where only concatenation and equality are
needed.  External subprocesses and the filesystem are modelled as oracles
passed in explicitly; fallible code returns `Option` or `Except`.
-/

set_option autoImplicit false

namespace TarScm

/-! ### Python `str.split(sep)` / `sep.join` on single-character separators -/

/-- Model of Python `s.split(sep)` for a one-character separator `sep`:
splits at every occurrence, keeping empty pieces (`"".split` gives `[""]`). -/
def splitOnChar (sep : Char) : List Char → List (List Char)
  | [] => [[]]
  | c :: cs =>
    if c == sep then [] :: splitOnChar sep cs
    else
      match splitOnChar sep cs with
      | [] => [[c]]
      | h :: t => (c :: h) :: t

/-- Model of Python `sep.join(pieces)` for a one-character separator. -/
def joinWith (sep : Char) : List (List Char) → List Char
  | [] => []
  | [l] => l
  | l :: ls => l ++ sep :: joinWith sep ls

theorem splitOnChar_ne_nil (sep : Char) (s : List Char) : splitOnChar sep s ≠ [] := by
  induction s with
  | nil => simp [splitOnChar]
  | cons c cs ih =>
    simp only [splitOnChar]
    split
    · simp
    · split
      · simp
      · simp

theorem splitOnChar_of_not_mem (sep : Char) (l : List Char) (h : sep ∉ l) :
    splitOnChar sep l = [l] := by
  induction l with
  | nil => rfl
  | cons c cs ih =>
    simp only [List.mem_cons, not_or] at h
    have hc : ¬((c == sep) = true) := by
      simp only [beq_iff_eq]
      exact fun hc => h.1 hc.symm
    simp only [splitOnChar]
    rw [if_neg hc, ih h.2]

theorem splitOnChar_append_sep (sep : Char) (l t : List Char) (h : sep ∉ l) :
    splitOnChar sep (l ++ sep :: t) = l :: splitOnChar sep t := by
  induction l with
  | nil => simp [splitOnChar]
  | cons c cs ih =>
    simp only [List.mem_cons, not_or] at h
    have hc : ¬((c == sep) = true) := by
      simp only [beq_iff_eq]
      exact fun hc => h.1 hc.symm
    show splitOnChar sep (c :: (cs ++ sep :: t)) = (c :: cs) :: splitOnChar sep t
    simp only [splitOnChar]
    rw [if_neg hc, ih h.2]

theorem splitOnChar_joinWith (sep : Char) (ls : List (List Char))
    (hne : ls ≠ []) (h : ∀ l ∈ ls, sep ∉ l) :
    splitOnChar sep (joinWith sep ls) = ls := by
  induction ls with
  | nil => cases hne rfl
  | cons l ls ih =>
    cases ls with
    | nil =>
      simp only [joinWith]
      exact splitOnChar_of_not_mem sep l (h l (by simp))
    | cons l2 ls2 =>
      have hj : joinWith sep (l :: l2 :: ls2) = l ++ sep :: joinWith sep (l2 :: ls2) := rfl
      rw [hj, splitOnChar_append_sep sep l _ (h l (by simp)),
        ih (by simp) (fun x hx => h x (List.mem_cons_of_mem _ hx))]

/-! ### A small regex engine for the patterns compiled by `create_tar`

`create_tar` compiles two kinds of Python regexes and matches them with
`p.match(name)`:

* `re.compile(fnmatch.translate(glob))` — the translated glob is a sequence
  of literals, `.` (with `(?s)`, so it also matches newline), `.*`
  (likewise), and character classes, followed by `\Z`; with the trailing
  `\Z`, `p.match` is a full match.
* the four hard-coded VCS patterns `.*/\.bzr.*` etc., where `.` does not
  match newline and `p.match` only requires a match at the start of the
  string (a matching prefix).

Every pattern that occurs is a sequence of the atoms below (`*` only ever
applies to `.`), so a regex is embedded as a `List RAtom` plus an
`anchored` flag recording a trailing `\Z`. -/

/-- One item of a regex character class `[...]`. -/
inductive ClsItem where
  | single (c : Char)
  | range (lo hi : Char)
deriving DecidableEq, Repr

/-- One regex atom: a literal character, `.` (`nl` = whether the `(?s)` flag
makes it match newline), `.*`, or a character class. -/
inductive RAtom where
  | lit (c : Char)
  | anyC (nl : Bool)
  | anyStar (nl : Bool)
  | cls (neg : Bool) (items : List ClsItem)
deriving DecidableEq, Repr

/-- Does character `x` match the class `[items]` (negated if `neg`)? -/
def clsMatch (neg : Bool) (items : List ClsItem) (x : Char) : Bool :=
  let m := items.any fun it =>
    match it with
    | .single c => x == c
    | .range lo hi => decide (lo ≤ x) && decide (x ≤ hi)
  if neg then !m else m

/-- Does atom `a` match the single character `x`? -/
def atomMatch (a : RAtom) (x : Char) : Bool :=
  match a with
  | .lit c => x == c
  | .anyC nl => nl || !(x == '\n')
  | .anyStar nl => nl || !(x == '\n')
  | .cls neg items => clsMatch neg items x

/-- Can the atom sequence `p` match the empty string (used by the full
match at the end of the subject)?  Only `.*` atoms can be skipped. -/
def nullableEnd : List RAtom → Bool
  | [] => true
  | .anyStar _ :: p => nullableEnd p
  | _ => false

/-- Step function for the full-match evaluator: `next q` decides whether
`q` fully matches the tail of the subject. -/
def rstep (next : List RAtom → Bool) (x : Char) : List RAtom → Bool
  | [] => false
  | .lit c :: p => atomMatch (.lit c) x && next p
  | .anyC nl :: p => atomMatch (.anyC nl) x && next p
  | .cls neg items :: p => atomMatch (.cls neg items) x && next p
  | .anyStar nl :: p =>
      rstep next x p || (atomMatch (.anyStar nl) x && next (.anyStar nl :: p))

/-- Full regex match (Python `p.match` on a pattern ending in `\Z`):
does `p` match all of `s`?  Subject first so the recursion is structural. -/
def rmatchS : List Char → List RAtom → Bool
  | [], p => nullableEnd p
  | x :: t, p => rstep (rmatchS t) x p

/-- Can the atom sequence `p` match a prefix of the empty string?  True when
every mandatory atom is gone (only `.*` or nothing remains). -/
def pnullable : List RAtom → Bool
  | [] => true
  | .anyStar _ :: p => pnullable p
  | _ => false

/-- Step function for the prefix-match evaluator. -/
def pstep (next : List RAtom → Bool) (x : Char) : List RAtom → Bool
  | [] => true
  | .lit c :: p => atomMatch (.lit c) x && next p
  | .anyC nl :: p => atomMatch (.anyC nl) x && next p
  | .cls neg items :: p => atomMatch (.cls neg items) x && next p
  | .anyStar nl :: p =>
      pstep next x p || (atomMatch (.anyStar nl) x && next (.anyStar nl :: p))

/-- Prefix regex match (Python `p.match` without a trailing `\Z`): does `p`
match some prefix of `s`? -/
def pmatchS : List Char → List RAtom → Bool
  | [], p => pnullable p
  | x :: t, p => pstep (pmatchS t) x p

/-- A compiled Python regex as used in `create_tar`: an atom sequence plus
whether the pattern ends in `\Z` (then `p.match` is a full match). -/
structure PyRegex where
  atoms : List RAtom
  anchored : Bool
deriving DecidableEq, Repr

/-- Python `p.match(s)` truthiness for an embedded pattern. -/
def PyRegex.isMatch (r : PyRegex) (s : List Char) : Bool :=
  if r.anchored then rmatchS s r.atoms else pmatchS s r.atoms

/-! ### `fnmatch.translate` (Python 2.7)

`fnmatch.translate` walks the glob pattern and emits `.*` for `*`, `.` for
`?`, a character class for `[...]` (with `!` turned into `^`, a leading `^`
escaped, an unclosed `[` emitted as a literal), and `re.escape(c)` (a
literal) for everything else, then appends `\Z(?ms)` — so all dots match
newline and matching is anchored at the end. -/

/-- Split a class body at the first `]`, returning (body, rest-after). -/
def splitAtRB : List Char → Option (List Char × List Char)
  | [] => none
  | c :: t =>
    if c == ']' then some ([], t)
    else (splitAtRB t).map fun pr => (c :: pr.1, pr.2)

/-- Find the class body after a `[`, mirroring `translate`'s index scan:
a leading `!`, then a leading `]`, are part of the body; the body ends at
the next `]`.  `none` when the bracket is unclosed. -/
def clsSplit : List Char → Option (List Char × List Char)
  | '!' :: ']' :: t => (splitAtRB t).map fun pr => ('!' :: ']' :: pr.1, pr.2)
  | '!' :: t => (splitAtRB t).map fun pr => ('!' :: pr.1, pr.2)
  | ']' :: t => (splitAtRB t).map fun pr => (']' :: pr.1, pr.2)
  | t => splitAtRB t

/-- Parse the items of a class body with regex class semantics: `a-b` is a
range, a `-` first or last is a literal.  (In `translate`'s output every
backslash of the glob is doubled, i.e. a literal backslash in the class, so
backslashes need no escape handling here.) -/
def parseClsItems : List Char → List ClsItem
  | [] => []
  | a :: '-' :: b :: rest => .range a b :: parseClsItems rest
  | a :: rest => .single a :: parseClsItems rest

/-- Build the class atom from a body: `translate` maps a leading `!` to the
negation `^` and escapes a leading `^` (making it a plain literal). -/
def mkCls (stuff : List Char) : RAtom :=
  match stuff with
  | '!' :: rest => .cls true (parseClsItems rest)
  | _ => .cls false (parseClsItems stuff)

/-- Body of `fnmatch.translate`, fuelled so that it is structural (the fuel
is the pattern length; each step consumes at least one character). -/
def transAuxF : Nat → List Char → List RAtom
  | _, [] => []
  | 0, _ :: _ => []
  | f + 1, c :: rest =>
    if c == '*' then .anyStar true :: transAuxF f rest
    else if c == '?' then .anyC true :: transAuxF f rest
    else if c == '[' then
      match clsSplit rest with
      | none => .lit '[' :: transAuxF f rest
      | some (stuff, after) => mkCls stuff :: transAuxF f after
    else .lit c :: transAuxF f rest

/-- Model of `re.compile(fnmatch.translate(pat))`: the translated atom
sequence, anchored by the trailing `\Z`. -/
def translate (pat : List Char) : PyRegex :=
  ⟨transAuxF pat.length pat, true⟩

/-! ### The tar entry filter of `create_tar` -/

/-- The metadata of one tar entry that `tar_filter` reads or writes. -/
structure TarInfo where
  name : String
  uid : Nat
  gid : Nat
  uname : String
  gname : String
deriving DecidableEq, Repr

/-- The four hard-coded VCS exclusion segments, in source order. -/
def vcsSegs : List String := ["/.bzr", "/.git", "/.hg", "/.svn"]

/-- The compiled pattern `re.compile(r".*/\.xxx.*")` for a VCS segment
`/.xxx`: dots do not match newline and there is no end anchor. -/
def vcsPattern (seg : String) : PyRegex :=
  ⟨.anyStar false :: (seg.data.map RAtom.lit ++ [.anyStar false]), false⟩

/-- The default exclusion patterns appended before the user excludes. -/
def vcsPatterns : List PyRegex := vcsSegs.map vcsPattern

/-- The `tar_filter` closure of `create_tar`: force ownership metadata to
root, then keep or drop the entry.  With include patterns present, keep
exactly when some include pattern matches (excludes are never consulted);
otherwise drop exactly when some exclusion pattern matches. -/
def tar_filter (inclPats exclPats : List PyRegex) (tarinfo : TarInfo) : Option TarInfo :=
  let ti := { tarinfo with uid := 0, gid := 0, uname := "root", gname := "root" }
  if !inclPats.isEmpty then
    if inclPats.any (fun p => p.isMatch ti.name.data) then some ti else none
  else if exclPats.any (fun p => p.isMatch ti.name.data) then none
  else some ti

/-- Pattern assembly of `create_tar`: includes are translated globs; the
exclusion list is the four VCS patterns followed by the translated user
excludes. -/
def create_tar_filter (incl excl : List String) (tarinfo : TarInfo) : Option TarInfo :=
  tar_filter (incl.map fun i => translate i.data)
    (vcsPatterns ++ excl.map fun e => translate e.data) tarinfo

/-- The entries `tar.add(topdir, filter=tar_filter)` writes into the
archive: each walked entry is passed through the filter and written
exactly when the filter returns it. -/
def archiveEntries (incl excl : List String) (entries : List TarInfo) : List TarInfo :=
  entries.filterMap (create_tar_filter incl excl)

/-! ### Matching lemmas for the VCS exclusion patterns -/

theorem pmatchS_anyStar_skip (p : List RAtom) (a b : List Char)
    (ha : ∀ c ∈ a, ¬c = '\n') (h : pmatchS b p = true) :
    pmatchS (a ++ b) (.anyStar false :: p) = true := by
  induction a with
  | nil =>
    cases b with
    | nil => simpa [pmatchS, pnullable] using h
    | cons x t =>
      have h' : pstep (pmatchS t) x p = true := h
      simp [pmatchS, pstep, h']
  | cons c a ih =>
    have hc : (c == '\n') = false := by
      simp only [beq_eq_false_iff_ne, ne_eq]
      exact ha c (by simp)
    have ih' := ih fun x hx => ha x (List.mem_cons_of_mem _ hx)
    simp [pmatchS, pstep, atomMatch, hc, ih']

theorem pmatchS_litSeq (l : List Char) (p : List RAtom) (s : List Char) :
    pmatchS (l ++ s) (l.map RAtom.lit ++ p) = pmatchS s p := by
  induction l with
  | nil => simp
  | cons c l ih => simp [pmatchS, pstep, atomMatch, ih]

theorem pmatchS_anyStar_only (nl : Bool) (s : List Char) :
    pmatchS s [.anyStar nl] = true := by
  cases s with
  | nil => cases nl <;> rfl
  | cons x t => simp [pmatchS, pstep]

theorem isSome_ite_some {α : Type} (b : Bool) (x : α) :
    ((if b = true then some x else none) : Option α).isSome = b := by
  cases b <;> simp

theorem ite_none_iff {α : Type} (b : Bool) (x : α) :
    (((if b = true then none else some x) : Option α) = none) ↔ b = true := by
  cases b <;> simp

theorem tar_filter_some (inclPats exclPats : List PyRegex) (ti e : TarInfo)
    (h : tar_filter inclPats exclPats ti = some e) :
    e = { ti with uid := 0, gid := 0, uname := "root", gname := "root" } := by
  simp only [tar_filter] at h
  split at h
  · split at h
    · exact (Option.some.inj h).symm
    · cases h
  · split at h
    · cases h
    · exact (Option.some.inj h).symm

/-- Claim C1: every entry written into the output archive by `create_tar`
has ownership metadata uid=0, gid=0, uname "root", gname "root", whatever
the filesystem ownership of the staged entry was (the `uid`/`gid`/`uname`/
`gname` of the incoming `TarInfo` are unconstrained) and whichever include
or exclude patterns were supplied. -/
theorem archive_entries_root_owned (incl excl : List String) (entries : List TarInfo)
    (e : TarInfo) (he : e ∈ archiveEntries incl excl entries) :
    e.uid = 0 ∧ e.gid = 0 ∧ e.uname = "root" ∧ e.gname = "root" := by
  rcases List.mem_filterMap.mp he with ⟨ti, _, h⟩
  simp only [create_tar_filter] at h
  have := tar_filter_some _ _ ti e h
  subst this
  exact ⟨rfl, rfl, rfl, rfl⟩

/-- Witness for C1 at a concrete staged entry owned by uid 12 / gid 34. -/
theorem archive_entries_root_owned_witness :
    (⟨"top/f.c", 0, 0, "root", "root"⟩ : TarInfo).uid = 0 ∧
    (⟨"top/f.c", 0, 0, "root", "root"⟩ : TarInfo).gid = 0 ∧
    (⟨"top/f.c", 0, 0, "root", "root"⟩ : TarInfo).uname = "root" ∧
    (⟨"top/f.c", 0, 0, "root", "root"⟩ : TarInfo).gname = "root" :=
  archive_entries_root_owned [] [] [⟨"top/f.c", 12, 34, "user", "grp"⟩] _ (by decide)

/-- Claim C2: with a non-empty include list an entry is kept exactly when
its path matches some translated include glob, the exclusion patterns
(VCS defaults and user excludes) being ignored entirely; with an empty
include list an entry is dropped exactly when its path matches some
exclusion pattern (the VCS defaults followed by the translated user
excludes). -/
theorem create_tar_filter_mode_spec (incl excl : List String) (ti : TarInfo) :
    (incl ≠ [] →
      ((create_tar_filter incl excl ti).isSome = true ↔
        ∃ pat ∈ incl, (translate pat.data).isMatch ti.name.data = true))
  ∧ (incl = [] →
      (create_tar_filter incl excl ti = none ↔
        ∃ p ∈ vcsPatterns ++ excl.map (fun e => translate e.data),
          p.isMatch ti.name.data = true)) := by
  constructor
  · intro hne
    have hne2 : ((incl.map fun i => translate i.data).isEmpty) = false := by
      cases incl with
      | nil => exact absurd rfl hne
      | cons a l => rfl
    simp only [create_tar_filter, tar_filter, hne2, Bool.not_false, if_true]
    rw [isSome_ite_some]
    simp [List.any_map, List.any_eq_true, Function.comp]
  · intro he
    subst he
    simp only [create_tar_filter, tar_filter, List.map_nil, List.isEmpty_nil,
      Bool.not_true]
    rw [if_neg (by simp), ite_none_iff]
    exact List.any_eq_true

/-- Witness for C2: include `["*.txt"]` keeps `pkg/readme.txt` although the
exclude list `["*"]` matches everything. -/
theorem create_tar_filter_mode_spec_witness :
    (create_tar_filter ["*.txt"] ["*"] ⟨"pkg/readme.txt", 3, 4, "u", "g"⟩).isSome = true :=
  ((create_tar_filter_mode_spec ["*.txt"] ["*"] ⟨"pkg/readme.txt", 3, 4, "u", "g"⟩).1
    (by decide)).mpr ⟨"*.txt", by decide, by decide⟩

/-- Claim C3 is false as stated: with include patterns present the
exclusion list is never consulted, so the include pattern `*` puts the
entry `top/.git/config`, which lives under a `.git` metadata directory,
into the archive. -/
theorem vcs_exclusion_counterexample :
    archiveEntries ["*"] [] [⟨"top/.git/config", 12, 34, "user", "user"⟩]
      = [⟨"top/.git/config", 0, 0, "root", "root"⟩] := by decide

/-- Claim C3 (amended): when no include patterns are supplied, an entry
whose path contains one of the segments `/.bzr`, `/.git`, `/.hg`, `/.svn`
(with no newline before the segment — the leading `.*` of the compiled
pattern does not match newline) is always dropped, regardless of the
user-supplied exclude patterns. -/
theorem vcs_excluded_when_no_includes (excl : List String) (a b : List Char)
    (seg : String) (hseg : seg ∈ vcsSegs) (ha : ∀ c ∈ a, ¬c = '\n')
    (uid gid : Nat) (un gn : String) :
    create_tar_filter [] excl ⟨String.mk (a ++ seg.data ++ b), uid, gid, un, gn⟩ = none := by
  have hmatch : (vcsPattern seg).isMatch (String.mk (a ++ seg.data ++ b)).data = true := by
    show pmatchS (a ++ seg.data ++ b) (.anyStar false :: (seg.data.map RAtom.lit ++ [.anyStar false])) = true
    rw [List.append_assoc]
    exact pmatchS_anyStar_skip _ a (seg.data ++ b) ha
      (by rw [pmatchS_litSeq]; exact pmatchS_anyStar_only false b)
  have hany : (vcsPatterns ++ excl.map fun e => translate e.data).any
      (fun p => p.isMatch (String.mk (a ++ seg.data ++ b)).data) = true :=
    List.any_eq_true.mpr
      ⟨vcsPattern seg, List.mem_append_left _ (List.mem_map_of_mem _ hseg), hmatch⟩
  simp only [create_tar_filter, tar_filter, List.map_nil, List.isEmpty_nil,
    Bool.not_true]
  rw [if_neg (by simp)]
  exact if_pos hany

/-- Witness for the amended C3 at a concrete `.git` entry and a user
exclude list that does not mention VCS directories. -/
theorem vcs_excluded_when_no_includes_witness :
    create_tar_filter [] ["*.o"]
      ⟨String.mk ("top".data ++ "/.git".data ++ "/config".data), 1, 2, "u", "g"⟩ = none :=
  vcs_excluded_when_no_includes ["*.o"] "top".data "/config".data "/.git"
    (by decide) (by decide) 1 2 "u" "g"

/-! ### `switch_revision_git` (claim C5)

The git commands are modelled by an oracle `GitRunner.ok` telling whether a
given argument vector exits with status 0 (`safe_run` raises `SystemExit`
otherwise).  Inside the loop both the `rev-parse` and the `reset` failure
are caught and make the loop try the next candidate; exhaustion exits with
"No such revision", and afterwards the submodule update runs (its failure
is `safe_run`'s own fatal exit). -/

/-- Success oracle for `safe_run` git invocations. -/
structure GitRunner where
  ok : List String → Bool

/-- Argument vector of `git rev-parse --verify --quiet <rev>`. -/
def revparseCmd (rev : String) : List String :=
  ["git", "rev-parse", "--verify", "--quiet", rev]

/-- Argument vector of `git reset --hard <rev>`. -/
def resetCmd (rev : String) : List String :=
  ["git", "reset", "--hard", rev]

/-- Argument vector of `git submodule update --recursive`. -/
def submoduleCmd : List String :=
  ["git", "submodule", "update", "--recursive"]

/-- The for/else loop of `switch_revision_git`: the first candidate whose
`rev-parse` and `reset` both succeed (a `SystemExit` from either is caught
and the next candidate is tried). -/
def firstGoodRev (r : GitRunner) : List String → Option String
  | [] => none
  | rev :: rest =>
    if r.ok (revparseCmd rev) && r.ok (resetCmd rev) then some rev
    else firstGoodRev r rest

/-- Model of `switch_revision_git(clone_dir, revision)`: default the
revision to "master", try `origin/<rev>` then `<rev>`, hard-reset to the
first that verifies, exit with "No such revision" when both fail, then
update submodules recursively.  Returns the ref the tree was reset to. -/
def switch_revision_git (r : GitRunner) (revision : Option String) : Except String String :=
  let rev := revision.getD "master"
  let revs := ["origin/", ""].map (· ++ rev)
  match firstGoodRev r revs with
  | none => .error (rev ++ ": No such revision")
  | some rv =>
    if r.ok submoduleCmd then .ok rv else .error "Command failed; aborting!"

/-- Claim C5: with the revision defaulted to "master" when absent,
`switch_revision_git` tries `origin/<rev>` then `<rev>` as a verifiable
ref, hard-resets to the first that verifies and then updates submodules,
and fails with "No such revision" when neither verifies.  The hypotheses
say that `git reset --hard` and the submodule update themselves succeed
(their failure is a separate fatal `safe_run` exit, not a revision-lookup
outcome). -/
theorem switch_revision_git_spec (r : GitRunner) (revision : Option String)
    (hreset : ∀ v, r.ok (resetCmd v) = true)
    (hsub : r.ok submoduleCmd = true) :
    switch_revision_git r revision =
      (let rev := revision.getD "master"
       if r.ok (revparseCmd ("origin/" ++ rev)) = true then .ok ("origin/" ++ rev)
       else if r.ok (revparseCmd rev) = true then .ok rev
       else .error (rev ++ ": No such revision")) := by
  simp only [switch_revision_git, firstGoodRev, List.map, hreset, Bool.and_true, hsub]
  by_cases h1 : r.ok (revparseCmd ("origin/" ++ revision.getD "master")) = true
  · simp [h1, String.append_empty]
  · simp only [Bool.not_eq_true] at h1
    by_cases h2 : r.ok (revparseCmd (revision.getD "master")) = true
    · simp [h1, h2]
    · simp only [Bool.not_eq_true] at h2
      simp [h1, h2]

/-- Witness for C5: a runner for which every command succeeds resolves the
absent revision to `origin/master`. -/
theorem switch_revision_git_spec_witness :
    switch_revision_git ⟨fun _ => true⟩ none = .ok "origin/master" := by
  rw [switch_revision_git_spec ⟨fun _ => true⟩ none (fun v => rfl) rfl]
  rfl

/-! ### Default clone directory name (claim C9)

`fetch_upstream` computes
`basename = os.path.basename(re.sub(r'/.git$', '', url))`.  In the regex
the dot is unescaped, so `/.git$` matches a slash, one arbitrary
non-newline character, then `git`, at the end of the string (or before a
trailing newline, which is what `$` means in Python). -/

/-- Model of `re.sub(r'/.git$', '', url)`: strip a trailing
slash + any-non-newline-character + "git", where `$` also matches just
before a final newline.  At most one occurrence can match. -/
def stripDotGitSuffix (u : List Char) : List Char :=
  match u.reverse with
  | 't' :: 'i' :: 'g' :: c :: '/' :: rest =>
    if c == '\n' then u else rest.reverse
  | '\n' :: 't' :: 'i' :: 'g' :: c :: '/' :: rest =>
    if c == '\n' then u else rest.reverse ++ ['\n']
  | _ => u

/-- Model of `os.path.basename` (POSIX): the part after the last slash. -/
def pyBasename (p : List Char) : List Char :=
  p.foldl (fun acc c => if c == '/' then [] else acc ++ [c]) []

/-- The `calc_dir_to_clone_to` step of `fetch_upstream`: the default
checkout directory name derived from the URL. -/
def calc_dir_to_clone_to (url : String) : List Char :=
  pyBasename (stripDotGitSuffix url.data)

/-- Claim C9 meets a code bug: because the `.` in `r'/.git$'` is an
unescaped regex dot, a URL ending in `/bgit` also has its last segment
stripped, so the default directory name for
`http://example.com/foo/bgit` is `foo`, not the claimed unchanged
basename `bgit`.  For an actual `/.git` suffix the stripping works as the
spec describes. -/
theorem calc_dir_to_clone_to_dot_bug :
    calc_dir_to_clone_to "http://example.com/foo/bgit" = "foo".data ∧
    calc_dir_to_clone_to "http://example.com/foo/bgit" ≠ "bgit".data ∧
    calc_dir_to_clone_to "http://example.com/repo/.git" = "repo".data := by
  decide

/-! ### Version selection in `__main__` (claim C10) -/

/-- Python truthiness of the optional `--versionformat` argument: `None`
and the empty string are falsy. -/
def pyTruthy : Option String → Bool
  | none => false
  | some s => !(s == "")

/-- Model of `version = args.version; if version == '_auto_' or
args.versionformat: version = detect_version(...)` with the detected value
supplied as an oracle. -/
def resolved_version (argVersion : String) (versionformat : Option String)
    (detected : String) : String :=
  if argVersion == "_auto_" || pyTruthy versionformat then detected else argVersion

/-- Model of `if version: dstname = dstname + '-' + version`. -/
def tarball_dstname (base version : String) : String :=
  if !(version == "") then base ++ "-" ++ version else base

/-- Claim C10 is false as stated: `--versionformat ""` is supplied but
falsy, so an explicit `--version 1.2` is not overridden by the detected
value `9.9`. -/
theorem resolved_version_counterexample :
    resolved_version "1.2" (some "") "9.9" = "1.2" ∧ "1.2" ≠ "9.9" := by
  decide

/-- Claim C10 (amended): whenever `--versionformat` is supplied with a
non-empty value, auto-detection runs and its result determines the tarball
name even when an explicit `--version` different from the sentinel
`_auto_` was passed; the explicit version is silently overridden. -/
theorem resolved_version_overrides (v f d base : String) (hf : f ≠ "") :
    resolved_version v (some f) d = d ∧
    (d ≠ "" → tarball_dstname base (resolved_version v (some f) d) = base ++ "-" ++ d) := by
  have ht : pyTruthy (some f) = true := by
    simp [pyTruthy, hf]
  constructor
  · simp [resolved_version, ht]
  · intro hd
    simp [resolved_version, tarball_dstname, ht, hd]

/-- Witness for the amended C10: explicit version 1.2 is overridden by the
detected 9.9 when a non-empty format is supplied. -/
theorem resolved_version_overrides_witness :
    resolved_version "1.2" (some "%ct") "9.9" = "9.9" ∧
    ("9.9" ≠ "" → tarball_dstname "pkg" (resolved_version "1.2" (some "%ct") "9.9")
      = "pkg" ++ "-" ++ "9.9") :=
  resolved_version_overrides "1.2" "%ct" "9.9" "pkg" (by decide)

/-! ### Git change detection (claim C6)

`detect_changes_commands_git` shells out three times; the command outputs
are modelled as an oracle: `skip10` is the output of
`git log -n1 --pretty=format:%H --skip=10` (the commit ten commits back
from HEAD), `head` the output of `git log -n1 --pretty=format:%H`, and
`range a b` the output of
`git log --no-merges --pretty=tformat:%s a..b` (newest-first subject
lines joined by newlines). -/

/-- Outputs of the git log invocations used for change detection. -/
structure GitLog where
  skip10 : List Char
  head : List Char
  range : List Char → List Char → List Char

/-- The mutable `change` dictionary passed through change detection. -/
structure Changes where
  revision : Option (List Char)
  url : List Char
  lines : Option (List Char)
deriving DecidableEq, Repr

/-- Model of `detect_changes_commands_git(repodir, changes)`: default the
last revision to the commit ten back from HEAD, return nothing when it
equals HEAD, otherwise record the current revision and the reversed
newline-joined subject lines of the range. -/
def detect_changes_commands_git (g : GitLog) (changes : Changes) : Option Changes :=
  let last_rev := changes.revision.getD g.skip10
  let current_rev := g.head
  if last_rev = current_rev then none
  else some { changes with
    revision := some current_rev,
    lines := some (joinWith '\n' (splitOnChar '\n' (g.range last_rev current_rev)).reverse) }

/-- Claim C6: with no recorded revision the starting point is the commit
ten commits back from HEAD; a recorded revision equal to HEAD yields no
change record; otherwise the non-merge subject lines of the range
(given newest-first by git) are reported oldest-first together with the
current revision id. -/
theorem detect_changes_git_spec (g : GitLog) (ch : Changes) :
    (detect_changes_commands_git g { ch with revision := none } =
       detect_changes_commands_git g { ch with revision := some g.skip10 })
  ∧ (∀ r, ch.revision = some r → r = g.head →
       detect_changes_commands_git g ch = none)
  ∧ (∀ r ls, ch.revision = some r → r ≠ g.head →
       g.range r g.head = joinWith '\n' ls → ls ≠ [] → (∀ l ∈ ls, '\n' ∉ l) →
       detect_changes_commands_git g ch =
         some { ch with revision := some g.head,
                        lines := some (joinWith '\n' ls.reverse) }) := by
  refine ⟨rfl, ?_, ?_⟩
  · intro r hr heq
    simp [detect_changes_commands_git, hr, heq]
  · intro r ls hr hne hrange hlsne hnl
    simp only [detect_changes_commands_git, hr, Option.getD_some]
    rw [if_neg hne, hrange, splitOnChar_joinWith '\n' ls hlsne hnl]

/-- Witness for C6 at a concrete three-commit history: subjects `s2`,`s1`
(newest first) are reported as `s1`,`s2` (oldest first) with HEAD `bbb`. -/
theorem detect_changes_git_spec_witness :
    detect_changes_commands_git
      ⟨"aaa".data, "bbb".data, fun _ _ => ('s' :: '2' :: '\n' :: 's' :: '1' :: [])⟩
      ⟨some "ccc".data, "http://u".data, none⟩ =
      some ⟨some "bbb".data, "http://u".data,
        some ('s' :: '1' :: '\n' :: 's' :: '2' :: [])⟩ :=
  (detect_changes_git_spec
      ⟨"aaa".data, "bbb".data, fun _ _ => ('s' :: '2' :: '\n' :: 's' :: '1' :: [])⟩
      ⟨some "ccc".data, "http://u".data, none⟩).2.2 "ccc".data
    ["s2".data, "s1".data] rfl (by decide) rfl (by decide) (by decide)

/-! ### Staging the tree for tar (claim C8)

`prep_tree_for_tar` consults the filesystem through `os.path.exists` and
`os.path.samefile`, modelled as oracles, and uses the POSIX path helpers
`os.path.join` and `os.path.dirname`, modelled concretely. -/

/-- Filesystem oracle: `pexists p` is `os.path.exists(p)`; `samefile a b`
is `os.path.samefile(a, b)` (only consulted on existing paths). -/
structure FS where
  pexists : String → Bool
  samefile : String → String → Bool

/-- Does the string start with a slash (`b.startswith('/')`)? -/
def startsWithSlash (s : String) : Bool :=
  match s.data with
  | '/' :: _ => true
  | _ => false

/-- Does the string end with a slash (`a.endswith('/')`)? -/
def endsWithSlash (s : String) : Bool :=
  match s.data.getLast? with
  | some c => c == '/'
  | none => false

/-- Model of POSIX `os.path.join(a, b)`: an absolute `b` wins; otherwise
the parts are joined with a slash unless `a` is empty or already ends in
one (so `join(a, "")` appends a trailing slash). -/
def pyJoin (a b : String) : String :=
  if startsWithSlash b then b
  else if (a == "") || endsWithSlash a then a ++ b
  else a ++ "/" ++ b

/-- Model of POSIX `os.path.dirname(p)`: everything before the last slash,
with trailing slashes stripped unless the result is all slashes. -/
def pyDirname (p : String) : String :=
  let head := (p.data.reverse.dropWhile (fun c => !(c == '/'))).reverse
  if head.all (fun c => c == '/') then String.mk head
  else String.mk (head.reverse.dropWhile (fun c => c == '/')).reverse

/-- Outcome of `prep_tree_for_tar`: the two fatal exits, or the performed
`shutil.copytree(src, dst)` (a full recursive copy, not a move) whose
destination path is returned. -/
inductive PrepResult where
  | notFound (msg : String)
  | sameFile (msg : String)
  | copied (src dst : String)
deriving DecidableEq, Repr

/-- Model of `prep_tree_for_tar(repodir, subdir, outdir, dstname)`. -/
def prep_tree_for_tar (fs : FS) (repodir subdir outdir dstname : String) : PrepResult :=
  let src := pyJoin repodir subdir
  if !(fs.pexists src) then .notFound (src ++ ": No such file or directory")
  else
    let dst := pyJoin outdir dstname
    if fs.pexists dst && (fs.samefile src dst || fs.samefile (pyDirname src) dst) then
      .sameFile (src ++ ": src and dst refer to same file")
    else .copied src dst

/-- Claim C8: staging fails with the NotFound exit when the requested
subdirectory of the working tree does not exist; it fails with the
SameFileConflict exit when the destination exists and aliases the source
or the source's parent directory; otherwise it performs a recursive copy
`copytree(src, outdir/dstname)` and returns the copied path. -/
theorem prep_tree_for_tar_spec (fs : FS) (repodir subdir outdir dstname : String) :
    (fs.pexists (pyJoin repodir subdir) = false →
       prep_tree_for_tar fs repodir subdir outdir dstname =
         .notFound (pyJoin repodir subdir ++ ": No such file or directory"))
  ∧ (fs.pexists (pyJoin repodir subdir) = true →
       fs.pexists (pyJoin outdir dstname) = true →
       (fs.samefile (pyJoin repodir subdir) (pyJoin outdir dstname) = true ∨
        fs.samefile (pyDirname (pyJoin repodir subdir)) (pyJoin outdir dstname) = true) →
       prep_tree_for_tar fs repodir subdir outdir dstname =
         .sameFile (pyJoin repodir subdir ++ ": src and dst refer to same file"))
  ∧ (fs.pexists (pyJoin repodir subdir) = true →
       (fs.pexists (pyJoin outdir dstname) = false ∨
        (fs.samefile (pyJoin repodir subdir) (pyJoin outdir dstname) = false ∧
         fs.samefile (pyDirname (pyJoin repodir subdir)) (pyJoin outdir dstname) = false)) →
       prep_tree_for_tar fs repodir subdir outdir dstname =
         .copied (pyJoin repodir subdir) (pyJoin outdir dstname)) := by
  refine ⟨?_, ?_, ?_⟩
  · intro h
    simp [prep_tree_for_tar, h]
  · intro hsrc hdst halias
    rcases halias with h | h <;>
      simp [prep_tree_for_tar, hsrc, hdst, h]
  · intro hsrc h
    rcases h with h | ⟨h1, h2⟩
    · simp [prep_tree_for_tar, hsrc, h]
    · simp [prep_tree_for_tar, hsrc, h1, h2]

/-- Witness for C8: with an existing source and a destination that does
not yet exist, staging copies `repo/sub` to `out/pkg-1.0` and returns the
destination. -/
theorem prep_tree_for_tar_spec_witness :
    prep_tree_for_tar
      ⟨fun p => p == "repo/sub", fun _ _ => false⟩ "repo" "sub" "out" "pkg-1.0" =
      .copied "repo/sub" "out/pkg-1.0" :=
  (prep_tree_for_tar_spec
    ⟨fun p => p == "repo/sub", fun _ _ => false⟩ "repo" "sub" "out" "pkg-1.0").2.2
    (by decide) (Or.inl (by decide))

/-! ### Persisting the changes revision (claim C7)

The `_servicedata` document is modelled as the list of `<service>`
children of the root, each with a name attribute and `<param>` children.
`write_changes_revision` looks for the last `<service name="tar_scm">`
whose `<param name="url">` text equals the URL (the inner `break` in the
source only leaves the param loop, so a later matching service wins),
updates or inserts its `changesrevision` param, and rewrites the file only
when something changed; with no matching service it exits fatally. -/

/-- A `<param name=...>text</param>` element. -/
structure XParam where
  pname : String
  ptext : String
deriving DecidableEq, Repr

/-- A `<service name=...>` element with its param children. -/
structure XService where
  sname : String
  sparams : List XParam
deriving DecidableEq, Repr

/-- Does this service element match `service[@name='tar_scm']` with a
`param[@name='url']` whose text equals `url`? -/
def serviceMatches (url : String) (s : XService) : Bool :=
  s.sname == "tar_scm" &&
    (s.sparams.filter (fun p => p.pname == "url")).any (fun p => p.ptext == url)

/-- The update of the matched service: with exactly one `changesrevision`
param, rewrite its text only when it differs; otherwise append a fresh
param.  The boolean is the `changed` flag deciding whether the file is
rewritten. -/
def setChangesRevision (revision : String) (s : XService) : XService × Bool :=
  match s.sparams.filter (fun p => p.pname == "changesrevision") with
  | [p] =>
    if p.ptext == revision then (s, false)
    else ({ s with sparams := s.sparams.map fun q =>
             if q.pname == "changesrevision" then { q with ptext := revision } else q },
          true)
  | _ => ({ s with sparams := s.sparams ++ [⟨"changesrevision", revision⟩] }, true)

/-- Model of `write_changes_revision(url, outdir, revision)`: the new
document and the `changed` flag, or the fatal missing-service exit.  The
recursion prefers a match further right, mirroring the loop whose `break`
only leaves the inner param loop. -/
def write_changes_revision (url revision : String) :
    List XService → Except String (List XService × Bool)
  | [] => .error ("File _servicedata is missing tar_scm with URL " ++ url)
  | s :: rest =>
    match write_changes_revision url revision rest with
    | .ok (rest2, ch) => .ok (s :: rest2, ch)
    | .error e =>
      if serviceMatches url s then
        .ok ((setChangesRevision revision s).1 :: rest, (setChangesRevision revision s).2)
      else .error e

theorem write_changes_revision_error_of_none (url revision : String)
    (doc : List XService) (h : ∀ s ∈ doc, serviceMatches url s = false) :
    write_changes_revision url revision doc =
      .error ("File _servicedata is missing tar_scm with URL " ++ url) := by
  induction doc with
  | nil => rfl
  | cons s rest ih =>
    have hs := h s (List.mem_cons_self s rest)
    have hrest := ih fun t ht => h t (List.mem_cons_of_mem _ ht)
    simp [write_changes_revision, hrest, hs]

theorem write_changes_revision_none_of_error (url revision : String) :
    ∀ doc : List XService,
      (∃ e, write_changes_revision url revision doc = .error e) →
      ∀ s ∈ doc, serviceMatches url s = false := by
  intro doc
  induction doc with
  | nil => intro _; simp
  | cons s rest ih =>
    rintro ⟨e, h⟩ t ht
    simp only [write_changes_revision] at h
    cases hr : write_changes_revision url revision rest with
    | ok pr => rw [hr] at h; cases h
    | error e2 =>
      rw [hr] at h
      by_cases hs : serviceMatches url s = true
      · simp [hs] at h
      · rcases List.mem_cons.mp ht with rfl | ht2
        · simpa using hs
        · exact ih ⟨e2, hr⟩ t ht2

theorem write_changes_revision_found (url revision : String) (pre : List XService)
    (s : XService) (post : List XService)
    (hs : serviceMatches url s = true)
    (hpost : ∀ t ∈ post, serviceMatches url t = false) :
    write_changes_revision url revision (pre ++ s :: post) =
      .ok (pre ++ (setChangesRevision revision s).1 :: post,
           (setChangesRevision revision s).2) := by
  induction pre with
  | nil =>
    have hp := write_changes_revision_error_of_none url revision post hpost
    simp [write_changes_revision, hp, hs]
  | cons t pre ih =>
    simp only [List.cons_append, write_changes_revision, List.append_eq, ih]

/-- Claim C7: `write_changes_revision` exits fatally exactly when no
service entry's url param equals the requested URL; with a (rightmost)
matching entry whose single stored `changesrevision` value already equals
the new revision the document is returned unchanged with no rewrite;
a differing stored value is updated in place with a rewrite; an absent
param is inserted with a rewrite; in every case the surrounding service
entries `pre` and `post` are preserved untouched. -/
theorem write_changes_revision_spec (url revision : String) (doc : List XService) :
    ((∃ e, write_changes_revision url revision doc = .error e) ↔
       ∀ s ∈ doc, serviceMatches url s = false)
  ∧ (∀ pre s post, doc = pre ++ s :: post →
       serviceMatches url s = true →
       (∀ t ∈ post, serviceMatches url t = false) →
       ((∀ p, s.sparams.filter (fun q => q.pname == "changesrevision") = [p] →
          (p.ptext = revision →
             write_changes_revision url revision doc = .ok (doc, false))
        ∧ (p.ptext ≠ revision →
             write_changes_revision url revision doc =
               .ok (pre ++ { s with sparams := s.sparams.map fun q =>
                      if q.pname == "changesrevision" then { q with ptext := revision }
                      else q } :: post, true)))
      ∧ (s.sparams.filter (fun q => q.pname == "changesrevision") = [] →
           write_changes_revision url revision doc =
             .ok (pre ++ { s with sparams :=
                    s.sparams ++ [⟨"changesrevision", revision⟩] } :: post, true)))) := by
  constructor
  · constructor
    · exact write_changes_revision_none_of_error url revision doc
    · intro h
      exact ⟨_, write_changes_revision_error_of_none url revision doc h⟩
  · intro pre s post hdoc hmatch hpost
    have hfound := write_changes_revision_found url revision pre s post hmatch hpost
    constructor
    · intro p hfilter
      constructor
      · intro hpeq
        have hset : setChangesRevision revision s = (s, false) := by
          unfold setChangesRevision
          rw [hfilter]
          simp [hpeq]
        rw [hdoc, hfound, hset]
      · intro hpne
        have hbe : (p.ptext == revision) = false := by
          simp [beq_eq_false_iff_ne, hpne]
        have hset : setChangesRevision revision s =
            ({ s with sparams := s.sparams.map fun q =>
                 if q.pname == "changesrevision" then { q with ptext := revision }
                 else q }, true) := by
          unfold setChangesRevision
          rw [hfilter]
          simp [hbe]
        rw [hdoc, hfound, hset]
    · intro hfilter
      have hset : setChangesRevision revision s =
          ({ s with sparams := s.sparams ++ [⟨"changesrevision", revision⟩] }, true) := by
        unfold setChangesRevision
        rw [hfilter]
      rw [hdoc, hfound, hset]

/-- A concrete sidecar document: an unrelated service, the matching
tar_scm entry with a stored revision, and a tar_scm entry for another
URL. -/
def sampleServicedata : List XService :=
  [⟨"other", [⟨"x", "y"⟩]⟩,
   ⟨"tar_scm", [⟨"url", "http://u"⟩, ⟨"changesrevision", "r1"⟩]⟩,
   ⟨"tar_scm", [⟨"url", "http://v"⟩]⟩]

/-- Witness for C7: updating `http://u` to revision `r2` rewrites only the
matching entry's `changesrevision` param and keeps both unrelated service
entries intact, reporting that the file must be rewritten. -/
theorem write_changes_revision_spec_witness :
    write_changes_revision "http://u" "r2" sampleServicedata =
      .ok ([⟨"other", [⟨"x", "y"⟩]⟩,
            ⟨"tar_scm", [⟨"url", "http://u"⟩, ⟨"changesrevision", "r2"⟩]⟩,
            ⟨"tar_scm", [⟨"url", "http://v"⟩]⟩], true) := by
  have h := (((write_changes_revision_spec "http://u" "r2" sampleServicedata).2
      [⟨"other", [⟨"x", "y"⟩]⟩]
      ⟨"tar_scm", [⟨"url", "http://u"⟩, ⟨"changesrevision", "r1"⟩]⟩
      [⟨"tar_scm", [⟨"url", "http://v"⟩]⟩] rfl (by decide) (by decide)).1
      ⟨"changesrevision", "r1"⟩ (by decide)).2 (by decide)
  simpa using h

/-! ### `version_iso_cleanup` (claim C4)

The first substitution is
`re.sub(r'([0-9]{4})-([0-9]{2})-([0-9]{2}) +([0-9]{2})([:]([0-9]{2})([:]([0-9]{2}))?)?( +[-+][0-9]{3,4})', r'\1\2\3T\4\6\8', version)`.
Note that the final timezone group has no `?`, so the pattern only matches
when a timezone is present; and the template references groups 6 and 8
(minutes and seconds), which in Python 2 raises an "unmatched group" error
when the optional groups did not participate — modelled as `none`.
The second substitution `re.sub(r'[-:]', '', version)` deletes every `-`
and `:`.  The regex is hand-compiled into a scanner: all quantifiers in it
are effectively possessive because each greedy piece is followed by a
piece that cannot start with the same characters. -/

/-- Exactly `n` characters matching `[0-9]`: the captured digits and the
rest. -/
def digitsN : Nat → List Char → Option (List Char × List Char)
  | 0, s => some ([], s)
  | _ + 1, [] => none
  | n + 1, c :: s =>
    if c.isDigit then (digitsN n s).map (fun pr => (c :: pr.1, pr.2)) else none

/-- One literal character. -/
def chomp (x : Char) : List Char → Option (List Char)
  | [] => none
  | c :: s => if c == x then some s else none

/-- Drop further literal spaces (the greedy tail of `" +"`). -/
def dropSpaces : List Char → List Char
  | [] => []
  | c :: s => if c == ' ' then dropSpaces s else c :: s

/-- Match `" +"`: at least one space, greedily. -/
def spaces1 : List Char → Option (List Char)
  | [] => none
  | c :: s => if c == ' ' then some (dropSpaces s) else none

/-- Match the optional `([:]([0-9]{2})([:]([0-9]{2}))?)?`: the captured
minutes, the captured seconds, and the rest. -/
def optMinSec (s : List Char) : Option (List Char) × Option (List Char) × List Char :=
  match chomp ':' s with
  | none => (none, none, s)
  | some s1 =>
    match digitsN 2 s1 with
    | none => (none, none, s)
    | some (mi, s2) =>
      match chomp ':' s2 with
      | none => (some mi, none, s2)
      | some s3 =>
        match digitsN 2 s3 with
        | none => (some mi, none, s2)
        | some (ss, s4) => (some mi, some ss, s4)

/-- Match `[-+]`. -/
def signChomp : List Char → Option (List Char)
  | [] => none
  | c :: s => if c == '+' || c == '-' then some s else none

/-- Match `[0-9]{3,4}` greedily: four digits if possible, else three. -/
def tzDigits (s : List Char) : Option (List Char × List Char) :=
  match digitsN 4 s with
  | some pr => some pr
  | none => digitsN 3 s

/-- Try the date regex at the start of `s`.  `none`: no match here.
`some (some repl, rest)`: a match consuming everything before `rest`,
replaced by `repl`.  `some (none, rest)`: a match whose template hits an
unmatched group 6 or 8 (missing minutes or seconds), which raises in
Python 2. -/
def tryIsoDate (s : List Char) : Option (Option (List Char) × List Char) :=
  (digitsN 4 s).bind fun pr1 =>
  (chomp '-' pr1.2).bind fun s2 =>
  (digitsN 2 s2).bind fun pr2 =>
  (chomp '-' pr2.2).bind fun s4 =>
  (digitsN 2 s4).bind fun pr3 =>
  (spaces1 pr3.2).bind fun s6 =>
  (digitsN 2 s6).bind fun pr4 =>
  let oms := optMinSec pr4.2
  (spaces1 oms.2.2).bind fun s9 =>
  (signChomp s9).bind fun s10 =>
  (tzDigits s10).map fun pr5 =>
    match oms.1, oms.2.1 with
    | some mi, some ss =>
      (some (pr1.1 ++ pr2.1 ++ pr3.1 ++ 'T' :: (pr4.1 ++ mi ++ ss)), pr5.2)
    | _, _ => (none, pr5.2)

/-- The left-to-right scan of `re.sub`: try a match at every position,
emit the replacement and continue after the match, propagate the
unmatched-group error.  The first argument is a fuel skeleton (always the
subject itself) keeping the recursion structural; every match consumes at
least one character, so the fuel never runs out. -/
def isoSubGo : List Char → List Char → Option (List Char)
  | _, [] => some []
  | [], _ :: _ => none
  | _ :: fs, c :: cs =>
    match tryIsoDate (c :: cs) with
    | some (some repl, rest) => (isoSubGo fs rest).map fun t => repl ++ t
    | some (none, _) => none
    | none => (isoSubGo fs cs).map fun t => c :: t

/-- The first `re.sub` of `version_iso_cleanup` over the whole string;
`none` models the raised unmatched-group error. -/
def isoSub (s : List Char) : Option (List Char) := isoSubGo s s

/-- The second `re.sub`: delete every `-` and `:`. -/
def stripDashColon (s : List Char) : List Char :=
  s.filter fun c => !(c == '-') && !(c == ':')

/-- Model of `version_iso_cleanup(version)`. -/
def version_iso_cleanup (v : List Char) : Option (List Char) :=
  (isoSub v).map stripDashColon

theorem isDigit_beq_false (c x : Char) (hc : c.isDigit = true)
    (hx : x.isDigit = false) : (c == x) = false := by
  cases hq : c == x with
  | false => rfl
  | true =>
    rw [beq_iff_eq] at hq
    subst hq
    rw [hc] at hx
    cases hx

theorem digitsN_mem (n : Nat) (s : List Char) (pr : List Char × List Char)
    (h : digitsN n s = some pr) : ∀ x ∈ pr.2, x ∈ s := by
  induction n generalizing s pr with
  | zero =>
    simp only [digitsN, Option.some.injEq] at h
    subst h
    intro x hx
    exact hx
  | succ n ih =>
    cases s with
    | nil => simp [digitsN] at h
    | cons c t =>
      simp only [digitsN] at h
      split at h
      · cases hd : digitsN n t with
        | none => rw [hd] at h; cases h
        | some pr2 =>
          rw [hd] at h
          simp only [Option.map_some', Option.some.injEq] at h
          subst h
          intro x hx
          exact List.mem_cons_of_mem c (ih t pr2 hd x hx)
      · cases h

theorem tryIsoDate_none_of_no_dash (s : List Char) (h : '-' ∉ s) :
    tryIsoDate s = none := by
  unfold tryIsoDate
  cases h4 : digitsN 4 s with
  | none => rw [Option.none_bind]
  | some pr =>
    rw [Option.some_bind]
    have hch : chomp '-' pr.2 = none := by
      cases hp : pr.2 with
      | nil => rfl
      | cons c t =>
        have hc : c ∈ s :=
          digitsN_mem 4 s pr h4 c (by rw [hp]; exact List.mem_cons_self c t)
        have hcne : (c == '-') = false := by
          cases hq : c == '-' with
          | false => rfl
          | true =>
            rw [beq_iff_eq] at hq
            subst hq
            exact absurd hc h
        simp [chomp, hcne]
    rw [hch, Option.none_bind]

theorem isoSubGo_no_dash (fuel : List Char) :
    ∀ s : List Char, s.length ≤ fuel.length → '-' ∉ s → isoSubGo fuel s = some s := by
  induction fuel with
  | nil =>
    intro s hlen h
    cases s with
    | nil => rfl
    | cons c cs => simp at hlen
  | cons f fs ih =>
    intro s hlen h
    cases s with
    | nil => rfl
    | cons c cs =>
      have hnone := tryIsoDate_none_of_no_dash (c :: cs) h
      simp only [isoSubGo, hnone]
      rw [ih cs (by simp only [List.length_cons] at hlen; omega)
        (fun hm => h (List.mem_cons_of_mem _ hm))]
      rfl

theorem stripDashColon_not_mem (s : List Char) :
    '-' ∉ stripDashColon s ∧ ':' ∉ stripDashColon s := by
  constructor <;> intro h <;>
    rcases List.mem_filter.mp h with ⟨-, hf⟩ <;> simp at hf

theorem stripDashColon_of_not_mem (s : List Char) (h1 : '-' ∉ s) (h2 : ':' ∉ s) :
    stripDashColon s = s :=
  List.filter_eq_self.mpr fun c hc => by
    have hc1 : ¬c = '-' := fun he => h1 (he ▸ hc)
    have hc2 : ¬c = ':' := fun he => h2 (he ▸ hc)
    simp [hc1, hc2]

theorem not_mem_of_digit_or_T (x : Char) (hnd : x.isDigit = false) (hnT : x ≠ 'T')
    (l : List Char) (hl : ∀ c ∈ l, c.isDigit = true ∨ c = 'T') : x ∉ l :=
  fun hm => by
    rcases hl x hm with hc | hc
    · exact Bool.false_ne_true (hnd ▸ hc)
    · exact hnT hc

/-- Claim C4 is false as stated: the timezone group of the date regex is
not optional, so the date `2011-10-12 19:51:11` (seconds present, timezone
absent — allowed by the claim) is not rewritten to the compact
`20111012T195111`; only the separators are stripped, leaving the space
and no `T`. -/
theorem version_iso_cleanup_counterexample :
    version_iso_cleanup "2011-10-12 19:51:11".data = some "20111012 195111".data ∧
    "20111012 195111".data ≠ "20111012T195111".data := by decide

/-- Claim C4 (amended): a date of the full form `YYYY-MM-DD HH:MM:SS ±ZZZZ`
(minutes, seconds and timezone all present) is rewritten to the compact
`YYYYMMDDTHHMMSS` form with the timezone dropped; and on every input on
which the substitution does not raise, the result contains no `-` or `:`
and the function is idempotent. -/
theorem version_iso_cleanup_spec :
    (∀ y1 y2 y3 y4 o1 o2 d1 d2 a1 a2 n1 n2 e1 e2 sg t1 t2 t3 t4 : Char,
      (∀ c ∈ ([y1, y2, y3, y4, o1, o2, d1, d2, a1, a2, n1, n2, e1, e2,
               t1, t2, t3, t4] : List Char), c.isDigit = true) →
      sg = '+' ∨ sg = '-' →
      version_iso_cleanup
        [y1, y2, y3, y4, '-', o1, o2, '-', d1, d2, ' ', a1, a2, ':',
         n1, n2, ':', e1, e2, ' ', sg, t1, t2, t3, t4]
        = some [y1, y2, y3, y4, o1, o2, d1, d2, 'T', a1, a2, n1, n2, e1, e2])
  ∧ (∀ v w, version_iso_cleanup v = some w →
      '-' ∉ w ∧ ':' ∉ w ∧ version_iso_cleanup w = some w) := by
  constructor
  · intro y1 y2 y3 y4 o1 o2 d1 d2 a1 a2 n1 n2 e1 e2 sg t1 t2 t3 t4 hd hsg
    have hds := hd
    simp only [List.forall_mem_cons] at hds
    obtain ⟨hy1, hy2, hy3, hy4, ho1, ho2, hd1, hd2, ha1, ha2, hn1, hn2,
      he1, he2, ht1, ht2, ht3, ht4, -⟩ := hds
    have hspA : (a1 == ' ') = false := isDigit_beq_false a1 ' ' ha1 (by decide)
    have hsgsp : (sg == ' ') = false := by rcases hsg with rfl | rfl <;> rfl
    have hsgpm : (sg == '+' || sg == '-') = true := by
      rcases hsg with rfl | rfl <;> rfl
    have s1h : digitsN 4
        [y1, y2, y3, y4, '-', o1, o2, '-', d1, d2, ' ', a1, a2, ':',
         n1, n2, ':', e1, e2, ' ', sg, t1, t2, t3, t4]
        = some ([y1, y2, y3, y4],
          ['-', o1, o2, '-', d1, d2, ' ', a1, a2, ':',
           n1, n2, ':', e1, e2, ' ', sg, t1, t2, t3, t4]) := by
      simp [digitsN, hy1, hy2, hy3, hy4]
    have s2h : chomp '-'
        ['-', o1, o2, '-', d1, d2, ' ', a1, a2, ':',
         n1, n2, ':', e1, e2, ' ', sg, t1, t2, t3, t4]
        = some [o1, o2, '-', d1, d2, ' ', a1, a2, ':',
                n1, n2, ':', e1, e2, ' ', sg, t1, t2, t3, t4] := by
      simp [chomp]
    have s3h : digitsN 2
        [o1, o2, '-', d1, d2, ' ', a1, a2, ':', n1, n2, ':', e1, e2, ' ',
         sg, t1, t2, t3, t4]
        = some ([o1, o2],
          ['-', d1, d2, ' ', a1, a2, ':', n1, n2, ':', e1, e2, ' ',
           sg, t1, t2, t3, t4]) := by
      simp [digitsN, ho1, ho2]
    have s4h : chomp '-'
        ['-', d1, d2, ' ', a1, a2, ':', n1, n2, ':', e1, e2, ' ',
         sg, t1, t2, t3, t4]
        = some [d1, d2, ' ', a1, a2, ':', n1, n2, ':', e1, e2, ' ',
                sg, t1, t2, t3, t4] := by
      simp [chomp]
    have s5h : digitsN 2
        [d1, d2, ' ', a1, a2, ':', n1, n2, ':', e1, e2, ' ', sg, t1, t2, t3, t4]
        = some ([d1, d2],
          [' ', a1, a2, ':', n1, n2, ':', e1, e2, ' ', sg, t1, t2, t3, t4]) := by
      simp [digitsN, hd1, hd2]
    have s6h : spaces1
        [' ', a1, a2, ':', n1, n2, ':', e1, e2, ' ', sg, t1, t2, t3, t4]
        = some [a1, a2, ':', n1, n2, ':', e1, e2, ' ', sg, t1, t2, t3, t4] := by
      simp [spaces1, dropSpaces, hspA]
    have s7h : digitsN 2
        [a1, a2, ':', n1, n2, ':', e1, e2, ' ', sg, t1, t2, t3, t4]
        = some ([a1, a2], [':', n1, n2, ':', e1, e2, ' ', sg, t1, t2, t3, t4]) := by
      simp [digitsN, ha1, ha2]
    have s8h : optMinSec [':', n1, n2, ':', e1, e2, ' ', sg, t1, t2, t3, t4]
        = (some [n1, n2], some [e1, e2], [' ', sg, t1, t2, t3, t4]) := by
      simp [optMinSec, chomp, digitsN, hn1, hn2, he1, he2]
    have s9h : spaces1 [' ', sg, t1, t2, t3, t4] = some [sg, t1, t2, t3, t4] := by
      simp [spaces1, dropSpaces, hsgsp]
    have s10h : signChomp [sg, t1, t2, t3, t4] = some [t1, t2, t3, t4] := by
      simp [signChomp, hsgpm]
    have s11h : tzDigits [t1, t2, t3, t4] = some ([t1, t2, t3, t4], []) := by
      simp [tzDigits, digitsN, ht1, ht2, ht3, ht4]
    have htry : tryIsoDate
        [y1, y2, y3, y4, '-', o1, o2, '-', d1, d2, ' ', a1, a2, ':',
         n1, n2, ':', e1, e2, ' ', sg, t1, t2, t3, t4]
        = some (some [y1, y2, y3, y4, o1, o2, d1, d2, 'T', a1, a2, n1, n2, e1, e2],
                []) := by
      unfold tryIsoDate
      simp only [s1h, Option.some_bind, s2h, s3h, s4h, s5h, s6h, s7h, s8h, s9h,
        s10h, s11h, Option.map_some']
      simp
    have hall : ∀ c ∈ ([y1, y2, y3, y4, o1, o2, d1, d2, 'T', a1, a2, n1, n2,
        e1, e2] : List Char), c.isDigit = true ∨ c = 'T' := by
      intro c hc
      simp only [List.mem_cons, List.not_mem_nil, or_false] at hc
      rcases hc with rfl | rfl | rfl | rfl | rfl | rfl | rfl | rfl | rfl | rfl |
        rfl | rfl | rfl | rfl | rfl
      exacts [Or.inl hy1, Or.inl hy2, Or.inl hy3, Or.inl hy4, Or.inl ho1, Or.inl ho2,
        Or.inl hd1, Or.inl hd2, Or.inr rfl, Or.inl ha1, Or.inl ha2, Or.inl hn1,
        Or.inl hn2, Or.inl he1, Or.inl he2]
    have hstrip : stripDashColon
        [y1, y2, y3, y4, o1, o2, d1, d2, 'T', a1, a2, n1, n2, e1, e2]
        = [y1, y2, y3, y4, o1, o2, d1, d2, 'T', a1, a2, n1, n2, e1, e2] :=
      stripDashColon_of_not_mem _
        (not_mem_of_digit_or_T '-' (by decide) (by decide) _ hall)
        (not_mem_of_digit_or_T ':' (by decide) (by decide) _ hall)
    unfold version_iso_cleanup isoSub
    simp only [isoSubGo, htry, Option.map_some', List.append_nil]
    rw [hstrip]
  · intro v w h
    simp only [version_iso_cleanup] at h
    obtain ⟨u, hu, hw⟩ := Option.map_eq_some'.mp h
    subst hw
    refine ⟨(stripDashColon_not_mem u).1, (stripDashColon_not_mem u).2, ?_⟩
    simp only [version_iso_cleanup, isoSub]
    rw [isoSubGo_no_dash _ _ (le_refl _) (stripDashColon_not_mem u).1,
      Option.map_some',
      stripDashColon_of_not_mem _ (stripDashColon_not_mem u).1
        (stripDashColon_not_mem u).2]

/-- Witness for the amended C4 at the concrete date
`2011-10-12 19:51:11 +0200`. -/
theorem version_iso_cleanup_spec_witness :
    version_iso_cleanup "2011-10-12 19:51:11 +0200".data
      = some "20111012T195111".data :=
  version_iso_cleanup_spec.1 '2' '0' '1' '1' '1' '0' '1' '2' '1' '9' '5' '1'
    '1' '1' '+' '0' '2' '0' '0' (by decide) (Or.inl rfl)

end TarScm
